import Mathlib

/-!
# infohhh: the sensitive-string scanner of `main.go`

A shallow embedding of `scanDirectory` (main.go, lines 82-160) and of the data
types it works on, followed by theorems about the embedding.

Conventions.

* The loops of the source are state-passing folds: the running `results` slice
  is the accumulator, `append` is `++ [_]`.
* The Go standard library is outside the program.  What the scanner uses of it
  is modelled as follows.
  - `regexp`: a parameter `compile : Compiler`.  `compile p = none` stands for
    `regexp.Compile` returning an error; `compile p = some re` gives the
    function `re line = regex.FindAllStringSubmatch(line, -1)`.
  - `filepath.Walk`: the sequence of calls it makes to the callback, one
    `WalkEntry` per call, in visiting order (`Walk` below).  `ioutil.ReadFile`
    is the `content` field of the entry.
  - `strings.Split`, `filepath.Ext`, `strings.ToLower`: small list functions
    (`Split`, `Ext`, `ToLower`).
-/

namespace Infohhh

/-! ## Data model (main.go, lines 17-38) -/

/-- Rule of the configuration file (main.go, lines 18-23). -/
structure Rule where
  ID : Int
  Name : String
  Enable : Bool
  Regexes : List String
deriving DecidableEq, Repr

/-- Config of the configuration file (main.go, lines 26-28). -/
structure Config where
  Rules : List Rule
deriving DecidableEq, Repr

/-- MatchResult, one reported occurrence (main.go, lines 31-38).  `LineNum` is
`lineNum + 1` for a slice index `lineNum`, hence a natural number. -/
structure MatchResult where
  FileName : String
  LineNum : Nat
  LineContent : String
  RuleID : Int
  RuleName : String
  MatchText : String
deriving DecidableEq, Repr

/-! ## The standard library, as far as the scanner uses it -/

/-- A compiled regular expression, seen through the only method the scanner
calls: `re line` is `regex.FindAllStringSubmatch(line, -1)`, the list of match
occurrences, each a list of strings (whole match first, then the groups). -/
abbrev Regexp := String → List (List String)

/-- The function `regexp.Compile`: `none` when it returns an error. -/
abbrev Compiler := String → Option Regexp

/-- One call of the callback by `filepath.Walk`: the `path` argument, whether
the `err` argument is non-nil, `info.IsDir()`, and what `ioutil.ReadFile(path)`
returns when it is called (`none` for an error). -/
structure WalkEntry where
  path : String
  err : Bool
  isDir : Bool
  content : Option String
deriving DecidableEq, Repr

/-- Pieces of a character list between the occurrences of the newline. -/
def splitNewline : List Char → List (List Char)
  | [] => [[]]
  | c :: cs =>
    if c = '\n' then [] :: splitNewline cs
    else
      match splitNewline cs with
      | [] => [[c]]
      | p :: ps => (c :: p) :: ps

/-- The call `strings.Split(s, "\n")`. -/
def Split (s : String) : List String :=
  (splitNewline s.data).map String.mk

/-- Loop of `filepath.Ext` over the path read from its end: the suffix that
starts at the last dot of the last path element (separator `/`). -/
def extLoop : List Char → List Char → List Char
  | [], _ => []
  | c :: before, suffix =>
    if c = '/' then []
    else if c = '.' then '.' :: suffix
    else extLoop before (c :: suffix)

/-- The call `filepath.Ext(path)`. -/
def Ext (path : String) : String :=
  String.mk (extLoop path.data.reverse [])

/-- The call `strings.ToLower(s)`, on the letters A-Z.  (Go also maps letters
outside ASCII; none of those is mapped to a letter of the extensions tested in
`walkFn`.) -/
def ToLower (s : String) : String :=
  String.mk (s.data.map Char.toLower)

/-! ## scanDirectory (main.go, lines 82-160) -/

/-- Body of `for _, match := range matches` (lines 129-147). -/
def matchStep (path : String) (lineNum : Nat) (line : String) (rule : Rule)
    (results : List MatchResult) (submatch : List String) : List MatchResult :=
  match submatch with
  | [] => results
  | m0 :: groups =>
    let matchText :=
      match groups with
      | m1 :: _ => if m1 ≠ "" then m1 else m0
      | [] => m0
    results ++ [{ FileName := path, LineNum := lineNum + 1, LineContent := line,
                  RuleID := rule.ID, RuleName := rule.Name, MatchText := matchText }]

/-- Body of `for _, regexPattern := range rule.Regexes` (lines 120-148). -/
def regexStep (compile : Compiler) (path : String) (lineNum : Nat) (line : String)
    (rule : Rule) (results : List MatchResult) (regexPattern : String) :
    List MatchResult :=
  match compile regexPattern with
  | none => results
  | some regex => (regex line).foldl (matchStep path lineNum line rule) results

/-- Body of `for _, rule := range config.Rules` (lines 114-149). -/
def ruleStep (compile : Compiler) (path : String) (lineNum : Nat) (line : String)
    (results : List MatchResult) (rule : Rule) : List MatchResult :=
  if !rule.Enable then results
  else rule.Regexes.foldl (regexStep compile path lineNum line rule) results

/-- Body of `for lineNum, line := range lines` (lines 112-150). -/
def lineStep (compile : Compiler) (config : Config) (path : String)
    (results : List MatchResult) (numbered : Nat × String) : List MatchResult :=
  config.Rules.foldl (ruleStep compile path numbered.1 numbered.2) results

/-- The extension test of line 99, negated: the file is processed. -/
def allowedExt (ext : String) : Bool :=
  !(ext != ".js" && ext != ".json" && ext != ".wxml" && ext != ".wxss" && ext != ".ts"
    && ext != ".jsx" && ext != ".tsx" && ext != ".html" && ext != ".css")

/-- The callback given to `filepath.Walk` (lines 86-153): the new `results`
and the error it returns (`none` for nil). -/
def walkFn (compile : Compiler) (config : Config) (results : List MatchResult)
    (e : WalkEntry) : List MatchResult × Option String :=
  if e.err then (results, none)
  else if e.isDir then (results, none)
  else
    let ext := ToLower (Ext e.path)
    if !allowedExt ext then (results, none)
    else
      match e.content with
      | none => (results, none)
      | some content =>
        let lines := Split content
        (lines.enum.foldl (lineStep compile config e.path) results, none)

/-- The function `filepath.Walk`, over the calls it makes: it goes on while the
callback returns nil and stops with the first error the callback returns. -/
def Walk (fn : List MatchResult → WalkEntry → List MatchResult × Option String) :
    List WalkEntry → List MatchResult → List MatchResult × Option String
  | [], results => (results, none)
  | e :: rest, results =>
    match fn results e with
    | (results1, none) => Walk fn rest results1
    | (results1, some err) => (results1, some err)

/-- The function `scanDirectory(dirPath, config)`; `tree` is what
`filepath.Walk(dirPath, _)` visits. -/
def scanDirectory (compile : Compiler) (tree : List WalkEntry) (config : Config) :
    List MatchResult :=
  (Walk (walkFn compile config) tree []).1

/-! ## The result as a concatenation

The same records, written without accumulator: what one occurrence, one
pattern, one rule, one line and one visited entry contribute. -/

/-- Records of one pattern on one line, by comprehension. -/
def regexRecords (compile : Compiler) (path : String) (lineNum : Nat) (line : String)
    (rule : Rule) (regexPattern : String) : List MatchResult :=
  match compile regexPattern with
  | none => []
  | some regex => (regex line).flatMap (matchStep path lineNum line rule [])

/-- Records of one rule on one line, by comprehension. -/
def ruleRecords (compile : Compiler) (path : String) (lineNum : Nat) (line : String)
    (rule : Rule) : List MatchResult :=
  if rule.Enable then rule.Regexes.flatMap (regexRecords compile path lineNum line rule)
  else []

/-- Records of one line, by comprehension. -/
def lineRecords (compile : Compiler) (config : Config) (path : String)
    (numbered : Nat × String) : List MatchResult :=
  config.Rules.flatMap (ruleRecords compile path numbered.1 numbered.2)

/-- The callback reaches `ioutil.ReadFile` for this entry: no walk error, not a
directory, extension accepted by line 99. -/
def reachesRead (e : WalkEntry) : Bool :=
  !e.err && !e.isDir && allowedExt (ToLower (Ext e.path))

/-- Records of one visited entry, by comprehension. -/
def fileRecords (compile : Compiler) (config : Config) (e : WalkEntry) :
    List MatchResult :=
  if reachesRead e then
    match e.content with
    | none => []
    | some content => (Split content).enum.flatMap (lineRecords compile config e.path)
  else []

/-! ## The line scanner in the words of the specification -/

/-- Text reported for an occurrence, in the words of the specification: the
first capturing group when there is one and its text is non-empty, the entire
matched substring otherwise. -/
def specMatchText (whole : String) (groups : List String) : String :=
  match groups.head? with
  | some g => if g = "" then whole else g
  | none => whole

/-- Record of one occurrence `whole :: groups`, in the words of the
specification (an occurrence always holds its whole match; `""` stands in for
a list without it). -/
def specRecord (path : String) (lineNum : Nat) (line : String) (rule : Rule)
    (occurrence : List String) : MatchResult :=
  { FileName := path, LineNum := lineNum + 1, LineContent := line,
    RuleID := rule.ID, RuleName := rule.Name,
    MatchText := specMatchText (occurrence.headD "") occurrence.tail }

/-- Records of one line, in the words of the specification: one record per
occurrence, over the enabled rules in declaration order, over those of their
patterns that compile in declaration order, over the occurrences from left to
right. -/
def specLineRecords (compile : Compiler) (config : Config) (path : String)
    (lineNum : Nat) (line : String) : List MatchResult :=
  (config.Rules.filter (fun rule => rule.Enable)).flatMap fun rule =>
    (rule.Regexes.filterMap compile).flatMap fun regex =>
      (regex line).map (specRecord path lineNum line rule)

/-- Contract of `FindAllStringSubmatch`: every occurrence it returns holds at
least the whole match (index 0). -/
def OccurrencesNonempty (compile : Compiler) : Prop :=
  ∀ p regex line occurrence,
    compile p = some regex → occurrence ∈ regex line → occurrence ≠ []

/-- The rule set after deleting from every rule the patterns that do not
compile. -/
def dropInvalid (compile : Compiler) (config : Config) : Config :=
  { Rules := config.Rules.map fun rule =>
      { rule with Regexes := rule.Regexes.filter fun p => (compile p).isSome } }

/-- The entry fails: it cannot be visited (the walk hands an error to the
callback), or it is a file with an accepted extension that cannot be read. -/
def failing (e : WalkEntry) : Bool :=
  e.err || (!e.isDir && allowedExt (ToLower (Ext e.path)) && e.content.isNone)

/-! ## The result with the loop indices kept

Every record together with the indices of the five loops at the moment it is
appended: entry, line, rule, pattern, occurrence (all counted from 0). -/

/-- Concatenation of `f i x` over the elements `x` of `l` at their index `i`,
each key extended in front by `i`. -/
def indexed {α β : Type} (f : Nat → α → List (List Nat × β)) (l : List α) :
    List (List Nat × β) :=
  l.enum.flatMap fun ix => (f ix.1 ix.2).map fun kb => (ix.1 :: kb.1, kb.2)

/-- Records of the occurrences of one pattern on one line, with the index of
the occurrence. -/
def tracedMatches (path : String) (lineNum : Nat) (line : String) (rule : Rule)
    (occurrences : List (List String)) : List (List Nat × MatchResult) :=
  indexed (fun _ occurrence =>
    (matchStep path lineNum line rule [] occurrence).map fun r => ([], r)) occurrences

/-- Records of one rule on one line, with pattern and occurrence index. -/
def tracedRegexes (compile : Compiler) (path : String) (lineNum : Nat) (line : String)
    (rule : Rule) : List (List Nat × MatchResult) :=
  indexed (fun _ regexPattern =>
    (compile regexPattern).elim [] fun regex =>
      tracedMatches path lineNum line rule (regex line)) rule.Regexes

/-- Records of one line, with rule, pattern and occurrence index. -/
def tracedRules (compile : Compiler) (config : Config) (path : String) (lineNum : Nat)
    (line : String) : List (List Nat × MatchResult) :=
  indexed (fun _ rule =>
    if rule.Enable then tracedRegexes compile path lineNum line rule else []) config.Rules

/-- Records of one visited entry, with line, rule, pattern and occurrence
index. -/
def tracedEntry (compile : Compiler) (config : Config) (e : WalkEntry) :
    List (List Nat × MatchResult) :=
  if reachesRead e then
    e.content.elim [] fun content =>
      indexed (fun lineNum line => tracedRules compile config e.path lineNum line)
        (Split content)
  else []

/-- The records of the scan, each with its five loop indices. -/
def tracedScan (compile : Compiler) (tree : List WalkEntry) (config : Config) :
    List (List Nat × MatchResult) :=
  indexed (fun _ e => tracedEntry compile config e) tree

/-- Strict lexicographic order on index lists of the same length. -/
def earlier : List Nat → List Nat → Prop
  | a :: as, b :: bs => a < b ∨ (a = b ∧ earlier as bs)
  | _, _ => False

/-! ## Go's `regexp` on the patterns used in the concrete evaluations

The three patterns `token=(\w+)`, `ABC\d+` and `a*`, each matched on every line
the way `FindAllStringSubmatch(line, -1)` matches it, and the invalid pattern
`(`. -/

/-- Occurrences of `literal` followed by one or more characters of `cls`: the
leftmost one first, its run of `cls` characters taken as long as it goes, the
search going on behind it.  Each occurrence is given as (whole match, run).
The first `skip` characters lie inside the occurrence found last. -/
def literalRunMatches (literal : List Char) (cls : Char → Bool) :
    Nat → List Char → List (List Char × List Char)
  | _, [] => []
  | skip + 1, _ :: cs => literalRunMatches literal cls skip cs
  | 0, c :: cs =>
    let run := ((c :: cs).drop literal.length).takeWhile cls
    if literal.isPrefixOf (c :: cs) && !run.isEmpty then
      (literal ++ run, run)
        :: literalRunMatches literal cls (literal.length + run.length - 1) cs
    else literalRunMatches literal cls 0 cs

/-- Occurrences of `c0*`: every maximal run of `c0`, and the empty match at
every other character and at the end of the line unless a run ends there;
`run` is the run read so far. -/
def starMatches (c0 : Char) : List Char → List Char → List (List Char)
  | [], run => [run]
  | c :: cs, run =>
    if c = c0 then starMatches c0 cs (run ++ [c])
    else run :: starMatches c0 cs []

/-- The class `\w` of Go's regexp: 0-9, A-Z, a-z and the underscore. -/
def wordChar (c : Char) : Bool :=
  c.isAlphanum || c == '_'

/-- The functions `regexp.Compile` and `FindAllStringSubmatch(line, -1)` on the
pattern strings `token=(\w+)`, `ABC\d+` (`\d` is 0-9) and `a*`; the pattern `(`
does not compile.  No other pattern string is used in this file; they are
treated like `(`. -/
def sampleCompile : Compiler := fun p =>
  if p = "token=(\\w+)" then
    some fun line =>
      (literalRunMatches "token=".data wordChar 0 line.data).map fun m =>
        [String.mk m.1, String.mk m.2]
  else if p = "ABC\\d+" then
    some fun line =>
      (literalRunMatches "ABC".data Char.isDigit 0 line.data).map fun m => [String.mk m.1]
  else if p = "a*" then
    some fun line => (starMatches 'a' line.data []).map fun run => [String.mk run]
  else none

/-! ## Lemmas: the loops are concatenations -/

theorem foldl_step_eq_append {α β : Type} (step : List β → α → List β) (f : α → List β)
    (h : ∀ acc a, step acc a = acc ++ f a) (l : List α) (acc : List β) :
    l.foldl step acc = acc ++ l.flatMap f := by
  induction l generalizing acc with
  | nil => simp
  | cons a l ih => simp [List.foldl_cons, ih, h, List.flatMap_cons, List.append_assoc]

theorem matchStep_eq_append (path : String) (lineNum : Nat) (line : String) (rule : Rule)
    (results : List MatchResult) (submatch : List String) :
    matchStep path lineNum line rule results submatch
      = results ++ matchStep path lineNum line rule [] submatch := by
  cases submatch with
  | nil => simp [matchStep]
  | cons m0 groups => simp [matchStep]

theorem regexStep_eq_append (compile : Compiler) (path : String) (lineNum : Nat)
    (line : String) (rule : Rule) (results : List MatchResult) (regexPattern : String) :
    regexStep compile path lineNum line rule results regexPattern
      = results ++ regexRecords compile path lineNum line rule regexPattern := by
  unfold regexStep regexRecords
  cases compile regexPattern with
  | none => simp
  | some regex =>
    exact foldl_step_eq_append _ _ (matchStep_eq_append path lineNum line rule) _ _

theorem ruleStep_eq_append (compile : Compiler) (path : String) (lineNum : Nat)
    (line : String) (results : List MatchResult) (rule : Rule) :
    ruleStep compile path lineNum line results rule
      = results ++ ruleRecords compile path lineNum line rule := by
  unfold ruleStep ruleRecords
  cases rule.Enable with
  | false => simp
  | true =>
    simpa using foldl_step_eq_append _ _
      (regexStep_eq_append compile path lineNum line rule) rule.Regexes results

theorem lineStep_eq_append (compile : Compiler) (config : Config) (path : String)
    (results : List MatchResult) (numbered : Nat × String) :
    lineStep compile config path results numbered
      = results ++ lineRecords compile config path numbered := by
  unfold lineStep lineRecords
  exact foldl_step_eq_append _ _
    (ruleStep_eq_append compile path numbered.1 numbered.2) _ _

theorem walkFn_eq (compile : Compiler) (config : Config) (results : List MatchResult)
    (e : WalkEntry) :
    walkFn compile config results e = (results ++ fileRecords compile config e, none) := by
  unfold walkFn fileRecords reachesRead
  cases e.err <;> cases e.isDir <;> cases hx : allowedExt (ToLower (Ext e.path)) <;>
    simp [hx]
  cases e.content with
  | none => simp
  | some content =>
    simpa using foldl_step_eq_append _ _
      (lineStep_eq_append compile config e.path) (Split content).enum results

theorem Walk_walkFn_eq (compile : Compiler) (config : Config) (tree : List WalkEntry)
    (results : List MatchResult) :
    Walk (walkFn compile config) tree results
      = (results ++ tree.flatMap (fileRecords compile config), none) := by
  induction tree generalizing results with
  | nil => simp [Walk]
  | cons e rest ih => simp [Walk, walkFn_eq, ih, List.flatMap_cons, List.append_assoc]

theorem scanDirectory_eq_flatMap (compile : Compiler) (tree : List WalkEntry)
    (config : Config) :
    scanDirectory compile tree config = tree.flatMap (fileRecords compile config) := by
  simp [scanDirectory, Walk_walkFn_eq]

theorem sampleCompile_occurrencesNonempty : OccurrencesNonempty sampleCompile := by
  intro p regex line occurrence hc hm
  unfold sampleCompile at hc
  split at hc
  · cases hc
    obtain ⟨m, _, rfl⟩ := List.mem_map.1 hm
    simp
  · split at hc
    · cases hc
      obtain ⟨m, _, rfl⟩ := List.mem_map.1 hm
      simp
    · split at hc
      · cases hc
        obtain ⟨run, _, rfl⟩ := List.mem_map.1 hm
        simp
      · cases hc

theorem ruleRecords_disabled (compile : Compiler) (path : String) (lineNum : Nat)
    (line : String) (rule : Rule) (h : rule.Enable = false) :
    ruleRecords compile path lineNum line rule = [] := by
  simp [ruleRecords, h]

theorem matchStep_nil_cons (path : String) (lineNum : Nat) (line : String) (rule : Rule)
    (whole : String) (groups : List String) :
    matchStep path lineNum line rule [] (whole :: groups)
      = [specRecord path lineNum line rule (whole :: groups)] := by
  cases groups with
  | nil => simp [matchStep, specRecord, specMatchText]
  | cons g rest =>
    by_cases hg : g = "" <;> simp [matchStep, specRecord, specMatchText, hg]

theorem regexRecords_eq_map (compile : Compiler) (hlib : OccurrencesNonempty compile)
    (path : String) (lineNum : Nat) (line : String) (rule : Rule) (p : String) :
    regexRecords compile path lineNum line rule p
      = (compile p).elim [] (fun regex => (regex line).map (specRecord path lineNum line rule))
    := by
  unfold regexRecords
  cases hc : compile p with
  | none => rfl
  | some regex =>
    simp only [Option.elim]
    have key : ∀ l : List (List String), (∀ m ∈ l, m ≠ []) →
        l.flatMap (matchStep path lineNum line rule [])
          = l.map (specRecord path lineNum line rule) := by
      intro l
      induction l with
      | nil => intro _; rfl
      | cons m l ih =>
        intro hl
        have hm : m ≠ [] := hl m (List.mem_cons_self _ _)
        obtain ⟨whole, groups, rfl⟩ := List.exists_cons_of_ne_nil hm
        rw [List.flatMap_cons, matchStep_nil_cons, List.map_cons,
          ih (fun m hm => hl m (List.mem_cons_of_mem _ hm))]
        rfl
    exact key _ (fun m hm => hlib p regex line m hc hm)

theorem filterMap_flatMap_eq {α β γ : Type} (f : α → Option β) (g : β → List γ)
    (l : List α) :
    (l.filterMap f).flatMap g
      = l.flatMap (fun a => (f a).elim [] g) := by
  induction l with
  | nil => rfl
  | cons a l ih =>
    cases h : f a with
    | none => simp [List.filterMap_cons, h, ih, List.flatMap_cons]
    | some b => simp [List.filterMap_cons, h, ih, List.flatMap_cons]

theorem filter_flatMap_eq {α γ : Type} (q : α → Bool) (g : α → List γ) (l : List α) :
    (l.filter q).flatMap g = l.flatMap (fun a => if q a then g a else []) := by
  induction l with
  | nil => rfl
  | cons a l ih =>
    cases h : q a <;> simp [List.filter_cons, h, ih, List.flatMap_cons]

theorem lineRecords_eq_spec (compile : Compiler) (hlib : OccurrencesNonempty compile)
    (config : Config) (path : String) (lineNum : Nat) (line : String) :
    lineRecords compile config path (lineNum, line)
      = specLineRecords compile config path lineNum line := by
  unfold lineRecords specLineRecords
  rw [filter_flatMap_eq]
  congr 1
  funext rule
  unfold ruleRecords
  cases rule.Enable with
  | false => simp
  | true =>
    simp only [if_true, filterMap_flatMap_eq]
    congr 1
    funext p
    exact regexRecords_eq_map compile hlib path lineNum line rule p

/-! ## Lemmas: the extension test -/

theorem allowedExt_iff (ext : String) :
    allowedExt ext = true
      ↔ ext ∈ [".js", ".json", ".wxml", ".wxss", ".ts", ".jsx", ".tsx", ".html", ".css"] := by
  unfold allowedExt
  simp only [List.mem_cons, List.mem_singleton, List.not_mem_nil, or_false,
    Bool.not_eq_true', Bool.and_eq_false_iff, bne_eq_false_iff_eq, or_assoc]

/-! ## Lemmas: where a record comes from -/

theorem mem_matchStep_iff (path : String) (lineNum : Nat) (line : String) (rule : Rule)
    (occurrence : List String) (r : MatchResult) :
    r ∈ matchStep path lineNum line rule [] occurrence
      ↔ ∃ whole groups, occurrence = whole :: groups
          ∧ r = specRecord path lineNum line rule (whole :: groups) := by
  cases occurrence with
  | nil => simp [matchStep]
  | cons whole groups =>
    rw [matchStep_nil_cons, List.mem_singleton]
    constructor
    · intro h
      exact ⟨whole, groups, rfl, h⟩
    · rintro ⟨w, g, heq, h⟩
      rw [heq]
      exact h

theorem mem_regexRecords_iff (compile : Compiler) (path : String) (lineNum : Nat)
    (line : String) (rule : Rule) (p : String) (r : MatchResult) :
    r ∈ regexRecords compile path lineNum line rule p
      ↔ ∃ regex, compile p = some regex ∧ ∃ whole groups, (whole :: groups) ∈ regex line
          ∧ r = specRecord path lineNum line rule (whole :: groups) := by
  unfold regexRecords
  cases compile p with
  | none => simp
  | some regex =>
    simp only [List.mem_flatMap, mem_matchStep_iff, Option.some.injEq, exists_eq_left']
    constructor
    · rintro ⟨occurrence, hm, whole, groups, rfl, hr⟩
      exact ⟨whole, groups, hm, hr⟩
    · rintro ⟨whole, groups, hm, hr⟩
      exact ⟨whole :: groups, hm, whole, groups, rfl, hr⟩

theorem mem_lineRecords_iff (compile : Compiler) (config : Config) (path : String)
    (numbered : Nat × String) (r : MatchResult) :
    r ∈ lineRecords compile config path numbered
      ↔ ∃ rule ∈ config.Rules, rule.Enable = true ∧ ∃ p ∈ rule.Regexes,
          ∃ regex, compile p = some regex ∧ ∃ whole groups,
            (whole :: groups) ∈ regex numbered.2
            ∧ r = specRecord path numbered.1 numbered.2 rule (whole :: groups) := by
  unfold lineRecords ruleRecords
  simp only [List.mem_flatMap]
  constructor
  · rintro ⟨rule, hrule, hr⟩
    split at hr
    · rename_i hen
      rw [List.mem_flatMap] at hr
      obtain ⟨p, hp, hr⟩ := hr
      exact ⟨rule, hrule, hen, p, hp, (mem_regexRecords_iff _ _ _ _ _ _ _).1 hr⟩
    · simp at hr
  · rintro ⟨rule, hrule, hen, p, hp, hr⟩
    refine ⟨rule, hrule, ?_⟩
    rw [if_pos hen, List.mem_flatMap]
    exact ⟨p, hp, (mem_regexRecords_iff _ _ _ _ _ _ _).2 hr⟩

theorem mem_fileRecords_iff (compile : Compiler) (config : Config) (e : WalkEntry)
    (r : MatchResult) :
    r ∈ fileRecords compile config e
      ↔ reachesRead e = true ∧ ∃ content, e.content = some content
          ∧ ∃ lineNum line, (Split content)[lineNum]? = some line
            ∧ r ∈ lineRecords compile config e.path (lineNum, line) := by
  unfold fileRecords
  by_cases hread : reachesRead e = true
  · simp only [hread, if_true, true_and]
    cases e.content with
    | none => simp
    | some content =>
      simp only [List.mem_flatMap, Option.some.injEq, exists_eq_left']
      constructor
      · rintro ⟨⟨lineNum, line⟩, hmem, hr⟩
        exact ⟨lineNum, line, List.mk_mem_enum_iff_getElem?.1 hmem, hr⟩
      · rintro ⟨lineNum, line, hget, hr⟩
        exact ⟨(lineNum, line), List.mk_mem_enum_iff_getElem?.2 hget, hr⟩
  · simp [hread]

/-- Origin of a record: the visited entry, the line, the rule, the pattern and
the occurrence it was appended for. -/
theorem mem_scanDirectory_iff (compile : Compiler) (tree : List WalkEntry)
    (config : Config) (r : MatchResult) :
    r ∈ scanDirectory compile tree config
      ↔ ∃ e ∈ tree, reachesRead e = true ∧ ∃ content, e.content = some content
          ∧ ∃ lineNum line, (Split content)[lineNum]? = some line
            ∧ ∃ rule ∈ config.Rules, rule.Enable = true ∧ ∃ p ∈ rule.Regexes,
                ∃ regex, compile p = some regex ∧ ∃ whole groups,
                  (whole :: groups) ∈ regex line
                  ∧ r = specRecord e.path lineNum line rule (whole :: groups) := by
  rw [scanDirectory_eq_flatMap, List.mem_flatMap]
  simp only [mem_fileRecords_iff, mem_lineRecords_iff]

/-! ## Lemmas: Split -/

theorem splitNewline_ne_nil (l : List Char) : splitNewline l ≠ [] := by
  cases l with
  | nil => simp [splitNewline]
  | cons c cs =>
    unfold splitNewline
    split
    · simp
    · split <;> simp

theorem newline_not_mem_splitNewline (l : List Char) :
    ∀ piece ∈ splitNewline l, '\n' ∉ piece := by
  induction l with
  | nil => simp [splitNewline]
  | cons c cs ih =>
    intro piece hp
    unfold splitNewline at hp
    split at hp
    · rcases List.mem_cons.1 hp with h | h
      · simp [h]
      · exact ih piece h
    · rename_i hc
      split at hp
      · rename_i hnil
        exact absurd hnil (splitNewline_ne_nil cs)
      · rename_i p ps hps
        rw [hps] at ih
        rcases List.mem_cons.1 hp with h | h
        · subst h
          intro hmem
          rcases List.mem_cons.1 hmem with h1 | h1
          · exact hc h1.symm
          · exact ih p (List.mem_cons_self _ _) h1
        · exact ih piece (List.mem_cons_of_mem _ h)

theorem intercalate_splitNewline (l : List Char) :
    List.intercalate ['\n'] (splitNewline l) = l := by
  induction l with
  | nil => simp [splitNewline, List.intercalate]
  | cons c cs ih =>
    unfold splitNewline
    split
    · rename_i hc
      obtain ⟨p, ps, hps⟩ := List.exists_cons_of_ne_nil (splitNewline_ne_nil cs)
      rw [hps] at ih ⊢
      simp [List.intercalate, List.intersperse] at ih ⊢
      exact ⟨hc.symm, ih⟩
    · split
      · rename_i hnil
        exact absurd hnil (splitNewline_ne_nil cs)
      · rename_i p ps hps
        rw [hps] at ih
        cases ps with
        | nil => simpa [List.intercalate, List.intersperse] using ih
        | cons q qs => simpa [List.intercalate, List.intersperse] using ih

theorem newline_not_mem_Split (s piece : String) (h : piece ∈ Split s) :
    '\n' ∉ piece.data := by
  unfold Split at h
  rw [List.mem_map] at h
  obtain ⟨chars, hchars, rfl⟩ := h
  exact newline_not_mem_splitNewline s.data chars hchars

/-! ## Lemmas: patterns that do not compile, entries that fail -/

theorem matchStep_rule_congr (path : String) (lineNum : Nat) (line : String)
    (rule rule1 : Rule) (hid : rule1.ID = rule.ID) (hname : rule1.Name = rule.Name)
    (results : List MatchResult) (occurrence : List String) :
    matchStep path lineNum line rule1 results occurrence
      = matchStep path lineNum line rule results occurrence := by
  unfold matchStep
  rw [hid, hname]

theorem regexRecords_rule_congr (compile : Compiler) (path : String) (lineNum : Nat)
    (line : String) (rule rule1 : Rule) (hid : rule1.ID = rule.ID)
    (hname : rule1.Name = rule.Name) (p : String) :
    regexRecords compile path lineNum line rule1 p
      = regexRecords compile path lineNum line rule p := by
  unfold regexRecords
  have hstep : matchStep path lineNum line rule1 [] = matchStep path lineNum line rule [] :=
    funext (matchStep_rule_congr path lineNum line rule rule1 hid hname [])
  rw [hstep]

theorem ruleRecords_dropInvalid (compile : Compiler) (path : String) (lineNum : Nat)
    (line : String) (rule : Rule) :
    ruleRecords compile path lineNum line
        { rule with Regexes := rule.Regexes.filter fun p => (compile p).isSome }
      = ruleRecords compile path lineNum line rule := by
  have hcongr : regexRecords compile path lineNum line
        { rule with Regexes := rule.Regexes.filter fun p => (compile p).isSome }
      = regexRecords compile path lineNum line rule :=
    funext (regexRecords_rule_congr compile path lineNum line rule _ rfl rfl)
  unfold ruleRecords
  rw [hcongr]
  dsimp only
  by_cases hen : rule.Enable = true
  · rw [if_pos hen, if_pos hen, filter_flatMap_eq]
    congr 1
    funext p
    cases hc : compile p with
    | none => simp [regexRecords, hc]
    | some regex => simp
  · rw [if_neg hen, if_neg hen]

theorem fileRecords_dropInvalid (compile : Compiler) (config : Config) (e : WalkEntry) :
    fileRecords compile (dropInvalid compile config) e = fileRecords compile config e := by
  have hline : lineRecords compile (dropInvalid compile config) e.path
      = lineRecords compile config e.path := by
    funext numbered
    unfold lineRecords dropInvalid
    rw [List.flatMap_map]
    congr 1
    funext rule
    exact ruleRecords_dropInvalid compile e.path numbered.1 numbered.2 rule
  unfold fileRecords
  rw [hline]

theorem fileRecords_failing (compile : Compiler) (config : Config) (e : WalkEntry)
    (h : failing e = true) : fileRecords compile config e = [] := by
  unfold fileRecords reachesRead
  unfold failing at h
  cases herr : e.err with
  | true => simp
  | false =>
    cases hdir : e.isDir with
    | true => simp
    | false =>
      cases hext : allowedExt (ToLower (Ext e.path)) with
      | false => simp
      | true =>
        cases hcontent : e.content with
        | none => simp
        | some content => simp [herr, hdir, hext, hcontent] at h

/-! ## Lemmas: loop indices -/

theorem pairwise_fst_lt_enumFrom {α : Type} (l : List α) (n : Nat) :
    (l.enumFrom n).Pairwise (fun a b => a.1 < b.1) := by
  induction l generalizing n with
  | nil => simp
  | cons x l ih =>
    rw [List.enumFrom_cons, List.pairwise_cons]
    refine ⟨?_, ih (n + 1)⟩
    intro b hb
    have := List.le_fst_of_mem_enumFrom hb
    show n < b.1
    omega

theorem enum_flatMap_snd {α β : Type} (g : α → List β) (l : List α) :
    l.enum.flatMap (fun ix => g ix.2) = l.flatMap g := by
  have h : l.enum.flatMap (fun ix => g ix.2) = (l.enum.map Prod.snd).flatMap g :=
    (List.flatMap_map Prod.snd g l.enum).symm
  rw [h, List.enum, List.enumFrom_map_snd]

theorem map_snd_indexed {α β : Type} (f : Nat → α → List (List Nat × β))
    (g : Nat × α → List β) (h : ∀ i x, (f i x).map Prod.snd = g (i, x)) (l : List α) :
    (indexed f l).map Prod.snd = l.enum.flatMap g := by
  unfold indexed
  rw [List.map_flatMap]
  congr 1
  funext ix
  rw [List.map_map]
  exact h ix.1 ix.2

theorem pairwise_indexed {α β : Type} (f : Nat → α → List (List Nat × β))
    (h : ∀ i x, (f i x).Pairwise (fun a b => earlier a.1 b.1)) (l : List α) :
    (indexed f l).Pairwise (fun a b => earlier a.1 b.1) := by
  unfold indexed
  rw [List.pairwise_flatMap]
  constructor
  · intro ix _
    rw [List.pairwise_map]
    exact (h ix.1 ix.2).imp (fun hab => Or.inr ⟨rfl, hab⟩)
  · refine (pairwise_fst_lt_enumFrom l 0).imp ?_
    intro a b hab x hx y hy
    obtain ⟨_, _, rfl⟩ := List.mem_map.1 hx
    obtain ⟨_, _, rfl⟩ := List.mem_map.1 hy
    exact Or.inl hab

theorem mem_indexed_iff {α β : Type} (f : Nat → α → List (List Nat × β)) (l : List α)
    (kb : List Nat × β) :
    kb ∈ indexed f l
      ↔ ∃ i x, l[i]? = some x ∧ ∃ k, (k, kb.2) ∈ f i x ∧ kb.1 = i :: k := by
  unfold indexed
  rw [List.mem_flatMap]
  constructor
  · rintro ⟨⟨i, x⟩, hix, hkb⟩
    obtain ⟨⟨k, b⟩, hmem, rfl⟩ := List.mem_map.1 hkb
    exact ⟨i, x, List.mk_mem_enum_iff_getElem?.1 hix, k, hmem, rfl⟩
  · rintro ⟨i, x, hget, k, hmem, hk⟩
    refine ⟨(i, x), List.mk_mem_enum_iff_getElem?.2 hget, List.mem_map.2 ⟨(k, kb.2), hmem, ?_⟩⟩
    cases kb
    simp only at hk
    rw [hk]

theorem matchStep_length_le_one (path : String) (lineNum : Nat) (line : String)
    (rule : Rule) (occurrence : List String) :
    (matchStep path lineNum line rule [] occurrence).length ≤ 1 := by
  cases occurrence with
  | nil => simp [matchStep]
  | cons whole groups => simp [matchStep_nil_cons]

theorem pairwise_of_length_le_one {α : Type} (R : α → α → Prop) (l : List α)
    (h : l.length ≤ 1) : l.Pairwise R := by
  match l, h with
  | [], _ => exact List.Pairwise.nil
  | [a], _ => exact List.pairwise_singleton R a

theorem map_snd_tracedMatches (path : String) (lineNum : Nat) (line : String) (rule : Rule)
    (occurrences : List (List String)) :
    (tracedMatches path lineNum line rule occurrences).map Prod.snd
      = occurrences.flatMap (matchStep path lineNum line rule []) := by
  unfold tracedMatches
  rw [map_snd_indexed _ (fun ix => matchStep path lineNum line rule [] ix.2), enum_flatMap_snd]
  intro i x
  rw [List.map_map]
  exact List.map_id _

theorem map_snd_tracedRegexes (compile : Compiler) (path : String) (lineNum : Nat)
    (line : String) (rule : Rule) :
    (tracedRegexes compile path lineNum line rule).map Prod.snd
      = rule.Regexes.flatMap (regexRecords compile path lineNum line rule) := by
  unfold tracedRegexes
  rw [map_snd_indexed _ (fun ix => regexRecords compile path lineNum line rule ix.2),
    enum_flatMap_snd]
  intro i p
  unfold regexRecords
  cases compile p with
  | none => rfl
  | some regex => exact map_snd_tracedMatches path lineNum line rule (regex line)

theorem map_snd_tracedRules (compile : Compiler) (config : Config) (path : String)
    (lineNum : Nat) (line : String) :
    (tracedRules compile config path lineNum line).map Prod.snd
      = lineRecords compile config path (lineNum, line) := by
  unfold tracedRules lineRecords
  rw [map_snd_indexed _ (fun ix => ruleRecords compile path lineNum line ix.2),
    enum_flatMap_snd]
  intro i rule
  unfold ruleRecords
  by_cases hen : rule.Enable = true
  · rw [if_pos hen, if_pos hen]
    exact map_snd_tracedRegexes compile path lineNum line rule
  · rw [if_neg hen, if_neg hen]
    rfl

theorem map_snd_tracedEntry (compile : Compiler) (config : Config) (e : WalkEntry) :
    (tracedEntry compile config e).map Prod.snd = fileRecords compile config e := by
  unfold tracedEntry fileRecords
  by_cases hread : reachesRead e = true
  · rw [if_pos hread, if_pos hread]
    cases e.content with
    | none => rfl
    | some content =>
      exact map_snd_indexed _ _
        (fun i line => map_snd_tracedRules compile config e.path i line) (Split content)
  · rw [if_neg hread, if_neg hread]
    rfl

theorem map_snd_tracedScan (compile : Compiler) (tree : List WalkEntry) (config : Config) :
    (tracedScan compile tree config).map Prod.snd = scanDirectory compile tree config := by
  unfold tracedScan
  rw [scanDirectory_eq_flatMap,
    map_snd_indexed _ (fun ix => fileRecords compile config ix.2), enum_flatMap_snd]
  intro i e
  exact map_snd_tracedEntry compile config e

theorem pairwise_tracedScan (compile : Compiler) (tree : List WalkEntry) (config : Config) :
    (tracedScan compile tree config).Pairwise (fun a b => earlier a.1 b.1) := by
  unfold tracedScan
  apply pairwise_indexed
  intro _ e
  unfold tracedEntry
  split
  · cases e.content with
    | none => exact List.Pairwise.nil
    | some content =>
      apply pairwise_indexed
      intro lineNum line
      unfold tracedRules
      apply pairwise_indexed
      intro _ rule
      split
      · unfold tracedRegexes
        apply pairwise_indexed
        intro _ p
        cases compile p with
        | none => exact List.Pairwise.nil
        | some regex =>
          show (tracedMatches e.path lineNum line rule (regex line)).Pairwise _
          unfold tracedMatches
          apply pairwise_indexed
          intro _ occurrence
          apply pairwise_of_length_le_one
          rw [List.length_map]
          exact matchStep_length_le_one e.path lineNum line rule occurrence
      · exact List.Pairwise.nil
  · exact List.Pairwise.nil

theorem mem_tracedScan (compile : Compiler) (tree : List WalkEntry) (config : Config)
    (kr : List Nat × MatchResult) (h : kr ∈ tracedScan compile tree config) :
    ∃ fi li ri pi mi e content line rule p regex occurrence,
      kr.1 = [fi, li, ri, pi, mi]
      ∧ tree[fi]? = some e ∧ reachesRead e = true ∧ e.content = some content
      ∧ (Split content)[li]? = some line
      ∧ config.Rules[ri]? = some rule ∧ rule.Enable = true
      ∧ rule.Regexes[pi]? = some p ∧ compile p = some regex
      ∧ (regex line)[mi]? = some occurrence
      ∧ matchStep e.path li line rule [] occurrence = [kr.2] := by
  obtain ⟨fi, e, hfi, k1, h1, hk1⟩ := (mem_indexed_iff _ _ _).1 h
  unfold tracedEntry at h1
  split at h1
  · rename_i hread
    cases hcontent : e.content with
    | none => rw [hcontent] at h1; cases h1
    | some content =>
      rw [hcontent] at h1
      obtain ⟨li, line, hli, k2, h2, hk2⟩ := (mem_indexed_iff _ _ _).1 h1
      obtain ⟨ri, rule, hri, k3, h3, hk3⟩ := (mem_indexed_iff _ _ _).1 h2
      split at h3
      · rename_i hen
        obtain ⟨pi, p, hpi, k4, h4, hk4⟩ := (mem_indexed_iff _ _ _).1 h3
        cases hc : compile p with
        | none => rw [hc] at h4; cases h4
        | some regex =>
          rw [hc] at h4
          have h4m : (k4, kr.2) ∈ tracedMatches e.path li line rule (regex line) := h4
          unfold tracedMatches at h4m
          obtain ⟨mi, occurrence, hmi, k5, h5, hk5⟩ := (mem_indexed_iff _ _ _).1 h4m
          obtain ⟨r, hr, hpair⟩ := List.mem_map.1 h5
          have hk5nil : k5 = [] := (congrArg Prod.fst hpair).symm
          have hr2 : r = kr.2 := congrArg Prod.snd hpair
          simp only at hk1 hk2 hk3 hk4 hk5
          refine ⟨fi, li, ri, pi, mi, e, content, line, rule, p, regex, occurrence, ?_,
            hfi, hread, hcontent, hli, hri, hen, hpi, hc, hmi, ?_⟩
          · rw [hk1, hk2, hk3, hk4, hk5, hk5nil]
          · rw [← hr2]
            obtain ⟨whole, groups, rfl, hspec⟩ := (mem_matchStep_iff _ _ _ _ _ _).1 hr
            rw [matchStep_nil_cons, hspec]
      · cases h3
  · cases h1

/-! ## The claims -/

/-- C1: for every match occurrence `whole :: groups` the record appended for it
has as MatchText the first group when there is one and it is non-empty, and
the whole match otherwise; the groups after the first play no role.  With Go's
values for `token=(\w+)` on "token=ABC123" and for `ABC\d+` on "xABC123y" the
reported text is "ABC123" both times. -/
theorem C1_matchText_first_group_else_whole :
    (∀ (path : String) (lineNum : Nat) (line : String) (rule : Rule)
        (results : List MatchResult) (whole : String) (groups : List String),
      matchStep path lineNum line rule results (whole :: groups)
        = results ++ [{ FileName := path, LineNum := lineNum + 1, LineContent := line,
                        RuleID := rule.ID, RuleName := rule.Name,
                        MatchText :=
                          match groups.head? with
                          | some g => if g = "" then whole else g
                          | none => whole }])
    ∧ (scanDirectory sampleCompile
          [{ path := "a.js", err := false, isDir := false, content := some "token=ABC123" }]
          { Rules := [{ ID := 1, Name := "token", Enable := true,
                        Regexes := ["token=(\\w+)"] }] }).map (fun r => r.MatchText)
        = ["ABC123"]
    ∧ (scanDirectory sampleCompile
          [{ path := "a.js", err := false, isDir := false, content := some "xABC123y" }]
          { Rules := [{ ID := 1, Name := "abc", Enable := true,
                        Regexes := ["ABC\\d+"] }] }).map (fun r => r.MatchText)
        = ["ABC123"] := by
  refine ⟨?_, by decide, by decide⟩
  intro path lineNum line rule results whole groups
  rw [matchStep_eq_append, matchStep_nil_cons]
  rfl

/-- C2: when the regexp library keeps its contract (every occurrence holds its
whole match), the line loop appends to `results` exactly one record per match
occurrence, empty matches included, over the enabled rules, their compiling
patterns and the occurrences, in this order and without deduplication; the
number of records of the line is the number of occurrences; and the result of
scanDirectory is the concatenation of these line records over the lines of the
files it reads. -/
theorem C2_line_records_one_per_occurrence (compile : Compiler)
    (hlib : OccurrencesNonempty compile) (tree : List WalkEntry) (config : Config)
    (path : String) (results : List MatchResult) (lineNum : Nat) (line : String) :
    lineStep compile config path results (lineNum, line)
        = results ++ specLineRecords compile config path lineNum line
    ∧ (specLineRecords compile config path lineNum line).length
        = (((config.Rules.filter (fun rule => rule.Enable)).map fun rule =>
            ((rule.Regexes.filterMap compile).map fun regex =>
              (regex line).length).sum).sum)
    ∧ scanDirectory compile tree config
        = tree.flatMap fun e =>
            if reachesRead e then
              e.content.elim [] fun content =>
                (Split content).enum.flatMap fun numbered =>
                  specLineRecords compile config e.path numbered.1 numbered.2
            else [] := by
  refine ⟨?_, ?_, ?_⟩
  · rw [lineStep_eq_append, lineRecords_eq_spec compile hlib]
  · simp [specLineRecords, List.length_flatMap, Function.comp_def]
  · rw [scanDirectory_eq_flatMap]
    congr 1
    funext e
    unfold fileRecords
    by_cases hread : reachesRead e = true
    · rw [if_pos hread, if_pos hread]
      cases e.content with
      | none => rfl
      | some content =>
        show (Split content).enum.flatMap (lineRecords compile config e.path) = _
        congr 1
        funext numbered
        exact lineRecords_eq_spec compile hlib config e.path numbered.1 numbered.2
    · rw [if_neg hread, if_neg hread]

/-- C2, concrete: two enabled rules whose pattern `ABC\d+` matches the same
substring of "xABC123y" give exactly two records for the line, one per rule;
and the empty matches of `a*` on "b" give two records. -/
theorem C2_line_records_one_per_occurrence_witness :
    OccurrencesNonempty sampleCompile
    ∧ lineStep sampleCompile
        { Rules := [{ ID := 1, Name := "first", Enable := true, Regexes := ["ABC\\d+"] },
                    { ID := 2, Name := "second", Enable := true, Regexes := ["ABC\\d+"] }] }
        "a.js" [] (0, "xABC123y")
      = [{ FileName := "a.js", LineNum := 1, LineContent := "xABC123y", RuleID := 1,
           RuleName := "first", MatchText := "ABC123" },
         { FileName := "a.js", LineNum := 1, LineContent := "xABC123y", RuleID := 2,
           RuleName := "second", MatchText := "ABC123" }]
    ∧ (specLineRecords sampleCompile
        { Rules := [{ ID := 7, Name := "stars", Enable := true, Regexes := ["a*"] }] }
        "a.js" 0 "b").length = 2 := by
  refine ⟨sampleCompile_occurrencesNonempty, ?_, ?_⟩
  · rw [(C2_line_records_one_per_occurrence sampleCompile
      sampleCompile_occurrencesNonempty [] _ "a.js" [] 0 "xABC123y").1]
    decide
  · rw [(C2_line_records_one_per_occurrence sampleCompile
      sampleCompile_occurrencesNonempty [] _ "a.js" [] 0 "b").2.1]
    decide

/-- C3: when every rule of the rule set has Enable = false, scanDirectory
returns the empty sequence, whatever the tree, the file contents and the
patterns (invalid ones included). -/
theorem C3_all_disabled_empty (compile : Compiler) (tree : List WalkEntry)
    (config : Config) (hoff : ∀ rule ∈ config.Rules, rule.Enable = false) :
    scanDirectory compile tree config = [] := by
  rw [scanDirectory_eq_flatMap]
  simp only [List.flatMap_eq_nil_iff]
  intro e _
  unfold fileRecords
  split
  · cases e.content with
    | none => rfl
    | some content =>
      simp only [List.flatMap_eq_nil_iff]
      intro numbered _
      unfold lineRecords
      simp only [List.flatMap_eq_nil_iff]
      intro rule hr
      exact ruleRecords_disabled compile e.path numbered.1 numbered.2 rule (hoff rule hr)
  · rfl

/-- C3, concrete: a file full of matches and a rule set with a valid and an
invalid pattern, all rules disabled: nothing is reported. -/
theorem C3_all_disabled_empty_witness :
    (∀ rule ∈ ({ Rules := [{ ID := 1, Name := "token", Enable := false,
                             Regexes := ["token=(\\w+)", "("] }] } : Config).Rules,
        rule.Enable = false)
    ∧ scanDirectory sampleCompile
        [{ path := "a.js", err := false, isDir := false, content := some "token=ABC123" }]
        { Rules := [{ ID := 1, Name := "token", Enable := false,
                      Regexes := ["token=(\\w+)", "("] }] } = [] :=
  ⟨by simp, C3_all_disabled_empty sampleCompile _ _ (by simp)⟩

/-- C4: the extension test accepts exactly the lower-cased extensions .js,
.json, .wxml, .wxss, .ts, .jsx, .tsx, .html, .css ("A.JS" passes, "a.js.bak"
does not); the callback runs the line loop over a readable file when its
extension passes and leaves `results` untouched otherwise; and no record of
any scan names a file whose extension is outside the list. -/
theorem C4_only_allowed_extensions_scanned :
    (∀ ext : String, allowedExt ext = true
        ↔ ext ∈ [".js", ".json", ".wxml", ".wxss", ".ts", ".jsx", ".tsx", ".html", ".css"])
    ∧ allowedExt (ToLower (Ext "A.JS")) = true
    ∧ allowedExt (ToLower (Ext "a.js.bak")) = false
    ∧ (∀ (compile : Compiler) (config : Config) (results : List MatchResult)
        (path content : String),
        walkFn compile config results
            { path := path, err := false, isDir := false, content := some content }
          = if ToLower (Ext path)
                ∈ [".js", ".json", ".wxml", ".wxss", ".ts", ".jsx", ".tsx", ".html", ".css"]
            then ((Split content).enum.foldl (lineStep compile config path) results, none)
            else (results, none))
    ∧ (∀ (compile : Compiler) (tree : List WalkEntry) (config : Config) (path : String),
        ToLower (Ext path)
            ∉ [".js", ".json", ".wxml", ".wxss", ".ts", ".jsx", ".tsx", ".html", ".css"] →
        ∀ r ∈ scanDirectory compile tree config, r.FileName ≠ path) := by
  have hiff := allowedExt_iff
  refine ⟨hiff, by decide, by decide, ?_, ?_⟩
  · intro compile config results path content
    by_cases h : allowedExt (ToLower (Ext path)) = true
    · rw [if_pos ((hiff _).1 h)]
      simp [walkFn, h]
    · rw [if_neg (fun hmem => h ((hiff _).2 hmem))]
      simp [walkFn, h]
  · intro compile tree config path hout r hr hname
    obtain ⟨e, _, hread, _, _, _, _, _, _, _, _, _, _, _, _, _, _, _, rfl⟩ :=
      (mem_scanDirectory_iff compile tree config r).1 hr
    have hpath : e.path = path := hname
    rw [← hpath] at hout
    apply hout
    apply (hiff _).1
    unfold reachesRead at hread
    simp only [Bool.and_eq_true] at hread
    exact hread.2

/-- C4, concrete: "a.js.bak" holds the same matching line as "a.js"; only
"a.js" is reported. -/
theorem C4_only_allowed_extensions_scanned_witness :
    ToLower (Ext "a.js.bak")
        ∉ [".js", ".json", ".wxml", ".wxss", ".ts", ".jsx", ".tsx", ".html", ".css"]
    ∧ (∀ r ∈ scanDirectory sampleCompile
          [{ path := "a.js", err := false, isDir := false, content := some "xABC123y" },
           { path := "a.js.bak", err := false, isDir := false, content := some "xABC123y" }]
          { Rules := [{ ID := 1, Name := "abc", Enable := true, Regexes := ["ABC\\d+"] }] },
        r.FileName ≠ "a.js.bak")
    ∧ (scanDirectory sampleCompile
          [{ path := "a.js", err := false, isDir := false, content := some "xABC123y" },
           { path := "a.js.bak", err := false, isDir := false, content := some "xABC123y" }]
          { Rules := [{ ID := 1, Name := "abc", Enable := true, Regexes := ["ABC\\d+"] }] }).map
        (fun r => r.FileName) = ["a.js"] :=
  ⟨by decide,
   C4_only_allowed_extensions_scanned.2.2.2.2 sampleCompile _ _ "a.js.bak" (by decide),
   by decide⟩

/-- C5, refuted as stated: the two empty matches of `a*` on the line "b" are
both recorded, with an empty MatchText. -/
theorem C5_empty_match_recorded :
    scanDirectory sampleCompile
        [{ path := "a.js", err := false, isDir := false, content := some "b" }]
        { Rules := [{ ID := 7, Name := "stars", Enable := true, Regexes := ["a*"] }] }
      = [{ FileName := "a.js", LineNum := 1, LineContent := "b", RuleID := 7,
           RuleName := "stars", MatchText := "" },
         { FileName := "a.js", LineNum := 1, LineContent := "b", RuleID := 7,
           RuleName := "stars", MatchText := "" }]
    ∧ ¬ (∀ r ∈ scanDirectory sampleCompile
            [{ path := "a.js", err := false, isDir := false, content := some "b" }]
            { Rules := [{ ID := 7, Name := "stars", Enable := true, Regexes := ["a*"] }] },
          r.MatchText ≠ "") := by
  constructor
  · decide
  · decide

/-- C5, amended: every record of the result was appended for an occurrence
`whole :: groups` that a compiling pattern of an enabled rule returns on the
record's line, and its MatchText is the text chosen for that occurrence (first
group when non-empty, else the whole match); it is non-empty whenever the whole
match is non-empty. -/
theorem C5_matchText_of_occurrence (compile : Compiler) (tree : List WalkEntry)
    (config : Config) (r : MatchResult) (hr : r ∈ scanDirectory compile tree config) :
    ∃ rule ∈ config.Rules, rule.Enable = true ∧ ∃ p ∈ rule.Regexes,
      ∃ regex, compile p = some regex ∧ ∃ whole groups,
        (whole :: groups) ∈ regex r.LineContent
        ∧ r.MatchText = specMatchText whole groups
        ∧ (whole ≠ "" → r.MatchText ≠ "") := by
  obtain ⟨e, _, _, content, _, lineNum, line, _, rule, hrule, hen, p, hp, regex, hc,
    whole, groups, hm, rfl⟩ := (mem_scanDirectory_iff compile tree config r).1 hr
  refine ⟨rule, hrule, hen, p, hp, regex, hc, whole, groups, hm, rfl, ?_⟩
  intro hwhole
  show specMatchText whole groups ≠ ""
  unfold specMatchText
  cases groups with
  | nil => simpa using hwhole
  | cons g rest =>
    by_cases hg : g = ""
    · simpa [hg] using hwhole
    · simp [hg]

/-- C5 amended, concrete: the record of `token=(\w+)` on "token=ABC123". -/
theorem C5_matchText_of_occurrence_witness :
    ∃ rule ∈ ({ Rules := [{ ID := 1, Name := "token", Enable := true,
                            Regexes := ["token=(\\w+)"] }] } : Config).Rules,
      rule.Enable = true ∧ ∃ p ∈ rule.Regexes,
      ∃ regex, sampleCompile p = some regex ∧ ∃ whole groups,
        (whole :: groups) ∈ regex "token=ABC123"
        ∧ "ABC123" = specMatchText whole groups
        ∧ (whole ≠ "" → "ABC123" ≠ "") :=
  C5_matchText_of_occurrence sampleCompile
    [{ path := "a.js", err := false, isDir := false, content := some "token=ABC123" }]
    { Rules := [{ ID := 1, Name := "token", Enable := true, Regexes := ["token=(\\w+)"] }] }
    { FileName := "a.js", LineNum := 1, LineContent := "token=ABC123", RuleID := 1,
      RuleName := "token", MatchText := "ABC123" }
    (by decide)

/-- C6: the lines of a scanned file are the pieces of its content between the
newlines ("a\nb\n" gives "a", "b", ""; joining the pieces with newlines gives
the content back and no piece holds a newline), numbered from 1: every record
of the result belongs to a visited entry with that path and a content whose
piece number LineNum (between 1 and the number of pieces) is the record's
LineContent, which holds no newline. -/
theorem C6_lines_split_and_numbered (compile : Compiler) (tree : List WalkEntry)
    (config : Config) (r : MatchResult) (hr : r ∈ scanDirectory compile tree config) :
    Split "a\nb\n" = ["a", "b", ""]
    ∧ (∀ s : String, String.mk (List.intercalate ['\n'] ((Split s).map String.data)) = s)
    ∧ (∀ s : String, ∀ piece ∈ Split s, '\n' ∉ piece.data)
    ∧ ∃ e ∈ tree, e.path = r.FileName ∧ ∃ content, e.content = some content
        ∧ 1 ≤ r.LineNum ∧ r.LineNum ≤ (Split content).length
        ∧ (Split content)[r.LineNum - 1]? = some r.LineContent
        ∧ '\n' ∉ r.LineContent.data := by
  refine ⟨by decide, ?_, newline_not_mem_Split, ?_⟩
  · intro s
    have hdata : (Split s).map String.data = splitNewline s.data := by
      unfold Split
      rw [List.map_map]
      have : (String.data ∘ String.mk) = id := by funext l; rfl
      rw [this, List.map_id]
    rw [hdata, intercalate_splitNewline]
  · obtain ⟨e, he, _, content, hcontent, lineNum, line, hget, rule, _, _, p, _, regex, _,
      whole, groups, _, rfl⟩ := (mem_scanDirectory_iff compile tree config r).1 hr
    refine ⟨e, he, rfl, content, hcontent, ?_, ?_, ?_, ?_⟩
    · show 1 ≤ lineNum + 1
      omega
    · show lineNum + 1 ≤ (Split content).length
      obtain ⟨hlt, _⟩ := List.getElem?_eq_some_iff.1 hget
      omega
    · show (Split content)[lineNum + 1 - 1]? = some line
      simpa using hget
    · show '\n' ∉ line.data
      exact newline_not_mem_Split content line (List.getElem?_mem hget)

/-- C6, concrete: the record of the second line of "a\nxABC123y\n". -/
theorem C6_lines_split_and_numbered_witness :
    ({ FileName := "a.js", LineNum := 2, LineContent := "xABC123y", RuleID := 1,
       RuleName := "abc", MatchText := "ABC123" } : MatchResult)
      ∈ scanDirectory sampleCompile
          [{ path := "a.js", err := false, isDir := false, content := some "a\nxABC123y\n" }]
          { Rules := [{ ID := 1, Name := "abc", Enable := true, Regexes := ["ABC\\d+"] }] }
    ∧ ∃ e ∈ [({ path := "a.js", err := false, isDir := false,
                content := some "a\nxABC123y\n" } : WalkEntry)],
        e.path = "a.js" ∧ ∃ content, e.content = some content
        ∧ 1 ≤ 2 ∧ 2 ≤ (Split content).length
        ∧ (Split content)[2 - 1]? = some "xABC123y"
        ∧ '\n' ∉ "xABC123y".data :=
  ⟨by decide,
   (C6_lines_split_and_numbered sampleCompile
      [{ path := "a.js", err := false, isDir := false, content := some "a\nxABC123y\n" }]
      { Rules := [{ ID := 1, Name := "abc", Enable := true, Regexes := ["ABC\\d+"] }] }
      { FileName := "a.js", LineNum := 2, LineContent := "xABC123y", RuleID := 1,
        RuleName := "abc", MatchText := "ABC123" }
      (by decide)).2.2.2⟩

/-- C7: a pattern that does not compile contributes no record and stops
nothing: the result is the result for the rule set from which every
non-compiling pattern has been deleted, record for record and in the same
order. -/
theorem C7_invalid_patterns_skipped (compile : Compiler) (tree : List WalkEntry)
    (config : Config) :
    scanDirectory compile tree config
        = scanDirectory compile tree (dropInvalid compile config)
    ∧ (∀ rule ∈ (dropInvalid compile config).Rules, ∀ p ∈ rule.Regexes, compile p ≠ none)
    ∧ (dropInvalid compile config).Rules.map (fun rule => (rule.ID, rule.Name, rule.Enable))
        = config.Rules.map (fun rule => (rule.ID, rule.Name, rule.Enable)) := by
  refine ⟨?_, ?_, ?_⟩
  · rw [scanDirectory_eq_flatMap, scanDirectory_eq_flatMap]
    congr 1
    funext e
    exact (fileRecords_dropInvalid compile config e).symm
  · intro rule hrule p hp hnone
    unfold dropInvalid at hrule
    obtain ⟨rule0, _, rfl⟩ := List.mem_map.1 hrule
    have hsome := (List.mem_filter.1 hp).2
    rw [hnone] at hsome
    cases hsome
  · unfold dropInvalid
    rw [List.map_map]
    rfl

/-- C7, concrete: the invalid pattern `(` before `token=(\w+)` in one rule and
a second rule after it; the records are those of the rule set without `(`:
line 1 "token=ABC123" is reported by both rules, line 2 "xABC123y" by the
second. -/
theorem C7_invalid_patterns_skipped_witness :
    (sampleCompile "(").isNone = true
    ∧ dropInvalid sampleCompile
        { Rules := [{ ID := 1, Name := "token", Enable := true,
                      Regexes := ["(", "token=(\\w+)"] },
                    { ID := 2, Name := "abc", Enable := true, Regexes := ["ABC\\d+"] }] }
      = { Rules := [{ ID := 1, Name := "token", Enable := true, Regexes := ["token=(\\w+)"] },
                    { ID := 2, Name := "abc", Enable := true, Regexes := ["ABC\\d+"] }] }
    ∧ scanDirectory sampleCompile
        [{ path := "a.js", err := false, isDir := false,
           content := some "token=ABC123\nxABC123y" }]
        { Rules := [{ ID := 1, Name := "token", Enable := true,
                      Regexes := ["(", "token=(\\w+)"] },
                    { ID := 2, Name := "abc", Enable := true, Regexes := ["ABC\\d+"] }] }
      = scanDirectory sampleCompile
        [{ path := "a.js", err := false, isDir := false,
           content := some "token=ABC123\nxABC123y" }]
        (dropInvalid sampleCompile
          { Rules := [{ ID := 1, Name := "token", Enable := true,
                        Regexes := ["(", "token=(\\w+)"] },
                      { ID := 2, Name := "abc", Enable := true, Regexes := ["ABC\\d+"] }] })
    ∧ (scanDirectory sampleCompile
        [{ path := "a.js", err := false, isDir := false,
           content := some "token=ABC123\nxABC123y" }]
        { Rules := [{ ID := 1, Name := "token", Enable := true,
                      Regexes := ["(", "token=(\\w+)"] },
                    { ID := 2, Name := "abc", Enable := true, Regexes := ["ABC\\d+"] }] }).map
        (fun r => (r.LineNum, r.RuleID, r.MatchText))
      = [(1, 1, "ABC123"), (1, 2, "ABC123"), (2, 2, "ABC123")] :=
  ⟨by decide, by decide, (C7_invalid_patterns_skipped sampleCompile _ _).1, by decide⟩

/-- C8: the records carry, in the order of the result, strictly increasing
index tuples (entry in visiting order, line, rule in declaration order, pattern
in declaration order, occurrence from left to right) in the lexicographic
order: the records of one visited entry are contiguous, inside them the line
number does not decrease, inside one line the rule index does not decrease,
inside one rule the pattern index does not decrease.  The tuple of a record
names the entry, line, rule, pattern and occurrence that produced it. -/
theorem C8_result_order (compile : Compiler) (tree : List WalkEntry) (config : Config) :
    (tracedScan compile tree config).map Prod.snd = scanDirectory compile tree config
    ∧ (tracedScan compile tree config).Pairwise (fun a b => earlier a.1 b.1)
    ∧ ∀ kr ∈ tracedScan compile tree config,
        ∃ fi li ri pi mi e content rule p regex occurrence,
          kr.1 = [fi, li, ri, pi, mi]
          ∧ tree[fi]? = some e ∧ e.content = some content
          ∧ kr.2.FileName = e.path
          ∧ (Split content)[li]? = some kr.2.LineContent ∧ kr.2.LineNum = li + 1
          ∧ config.Rules[ri]? = some rule
          ∧ kr.2.RuleID = rule.ID ∧ kr.2.RuleName = rule.Name
          ∧ rule.Regexes[pi]? = some p ∧ compile p = some regex
          ∧ (regex kr.2.LineContent)[mi]? = some occurrence
          ∧ matchStep e.path li kr.2.LineContent rule [] occurrence = [kr.2] := by
  refine ⟨map_snd_tracedScan compile tree config, pairwise_tracedScan compile tree config, ?_⟩
  intro kr hkr
  obtain ⟨fi, li, ri, pi, mi, e, content, line, rule, p, regex, occurrence, hk, hfi, _,
    hcontent, hli, hri, _, hpi, hc, hmi, hstep⟩ := mem_tracedScan compile tree config kr hkr
  have hmem : kr.2 ∈ matchStep e.path li line rule [] occurrence := by
    rw [hstep]
    exact List.mem_singleton.2 rfl
  obtain ⟨whole, groups, _, hspec⟩ := (mem_matchStep_iff _ _ _ _ _ _).1 hmem
  have hline : kr.2.LineContent = line := by rw [hspec]; rfl
  refine ⟨fi, li, ri, pi, mi, e, content, rule, p, regex, occurrence, hk, hfi, hcontent,
    ?_, ?_, ?_, hri, ?_, ?_, hpi, hc, ?_, ?_⟩
  · rw [hspec]; rfl
  · rw [hline]; exact hli
  · rw [hspec]; rfl
  · rw [hspec]; rfl
  · rw [hspec]; rfl
  · rw [hline]; exact hmi
  · rw [hline]; exact hstep

/-- C8, concrete: two files, two rules (the first with the invalid pattern `(`
before `token=(\w+)`); the index tuples of the five records, and the origin of
the fifth, the second occurrence of `ABC\d+` on "ABC1 ABC2". -/
theorem C8_result_order_witness :
    (tracedScan sampleCompile
        [{ path := "a.js", err := false, isDir := false,
           content := some "xABC123y\ntoken=ABC123" },
         { path := "b.ts", err := false, isDir := false, content := some "ABC1 ABC2" }]
        { Rules := [{ ID := 5, Name := "token", Enable := true,
                      Regexes := ["(", "token=(\\w+)"] },
                    { ID := 2, Name := "abc", Enable := true, Regexes := ["ABC\\d+"] }] }).map
      (fun kr => (kr.1, kr.2.FileName, kr.2.LineNum, kr.2.RuleID, kr.2.MatchText))
      = [([0, 0, 1, 0, 0], "a.js", 1, 2, "ABC123"),
         ([0, 1, 0, 1, 0], "a.js", 2, 5, "ABC123"),
         ([0, 1, 1, 0, 0], "a.js", 2, 2, "ABC123"),
         ([1, 0, 1, 0, 0], "b.ts", 1, 2, "ABC1"),
         ([1, 0, 1, 0, 1], "b.ts", 1, 2, "ABC2")]
    ∧ ∃ fi li ri pi mi e content rule p regex occurrence,
        [1, 0, 1, 0, 1] = [fi, li, ri, pi, mi]
        ∧ [({ path := "a.js", err := false, isDir := false,
              content := some "xABC123y\ntoken=ABC123" } : WalkEntry),
           { path := "b.ts", err := false, isDir := false,
             content := some "ABC1 ABC2" }][fi]? = some e
        ∧ e.content = some content
        ∧ "b.ts" = e.path
        ∧ (Split content)[li]? = some "ABC1 ABC2" ∧ 1 = li + 1
        ∧ [({ ID := 5, Name := "token", Enable := true,
              Regexes := ["(", "token=(\\w+)"] } : Rule),
           { ID := 2, Name := "abc", Enable := true, Regexes := ["ABC\\d+"] }][ri]? = some rule
        ∧ 2 = rule.ID ∧ "abc" = rule.Name
        ∧ rule.Regexes[pi]? = some p ∧ sampleCompile p = some regex
        ∧ (regex "ABC1 ABC2")[mi]? = some occurrence
        ∧ matchStep e.path li "ABC1 ABC2" rule [] occurrence
            = [{ FileName := "b.ts", LineNum := 1, LineContent := "ABC1 ABC2", RuleID := 2,
                 RuleName := "abc", MatchText := "ABC2" }] :=
  ⟨by decide,
   (C8_result_order sampleCompile
      [{ path := "a.js", err := false, isDir := false,
         content := some "xABC123y\ntoken=ABC123" },
       { path := "b.ts", err := false, isDir := false, content := some "ABC1 ABC2" }]
      { Rules := [{ ID := 5, Name := "token", Enable := true,
                    Regexes := ["(", "token=(\\w+)"] },
                  { ID := 2, Name := "abc", Enable := true, Regexes := ["ABC\\d+"] }] }).2.2
      ([1, 0, 1, 0, 1],
       { FileName := "b.ts", LineNum := 1, LineContent := "ABC1 ABC2", RuleID := 2,
         RuleName := "abc", MatchText := "ABC2" })
      (by decide)⟩

/-- C9: the callback never returns an error, so the walk is never aborted and
scanDirectory returns its result; the result is the one for the tree without
the failing entries (walk error, or accepted file that cannot be read); every
record comes from an entry that does not fail, and when no path is visited
twice no record names a failing entry. -/
theorem C9_failing_entries_skipped (compile : Compiler) (tree : List WalkEntry)
    (config : Config) :
    (Walk (walkFn compile config) tree []).2 = none
    ∧ scanDirectory compile tree config
        = scanDirectory compile (tree.filter fun e => !failing e) config
    ∧ (∀ r ∈ scanDirectory compile tree config,
        ∃ e ∈ tree, e.path = r.FileName ∧ failing e = false)
    ∧ ((tree.map fun e => e.path).Nodup →
        ∀ r ∈ scanDirectory compile tree config,
          ∀ e ∈ tree, failing e = true → e.path ≠ r.FileName) := by
  have horigin : ∀ r ∈ scanDirectory compile tree config,
      ∃ e ∈ tree, e.path = r.FileName ∧ failing e = false := by
    intro r hr
    rw [scanDirectory_eq_flatMap, List.mem_flatMap] at hr
    obtain ⟨e, he, hmem⟩ := hr
    refine ⟨e, he, ?_, ?_⟩
    · obtain ⟨_, _, _, _, _, _, hline⟩ := (mem_fileRecords_iff compile config e r).1 hmem
      obtain ⟨_, _, _, _, _, _, _, _, _, _, rfl⟩ :=
        (mem_lineRecords_iff compile config e.path _ r).1 hline
      rfl
    · cases hf : failing e with
      | false => rfl
      | true =>
        rw [fileRecords_failing compile config e hf] at hmem
        cases hmem
  refine ⟨?_, ?_, horigin, ?_⟩
  · rw [Walk_walkFn_eq]
  · rw [scanDirectory_eq_flatMap, scanDirectory_eq_flatMap, filter_flatMap_eq]
    congr 1
    funext e
    cases hf : failing e with
    | false => simp
    | true => simpa using fileRecords_failing compile config e hf
  · intro hnodup r hr e he hfail hpath
    obtain ⟨e1, he1, hpath1, hok⟩ := horigin r hr
    have hsame : e = e1 :=
      List.inj_on_of_nodup_map hnodup he he1 (hpath.trans hpath1.symm)
    rw [hsame, hok] at hfail
    cases hfail

/-- C9, concrete: a walk error, an unreadable accepted file and a readable one;
the scan reports the readable file exactly as if the other two were absent. -/
theorem C9_failing_entries_skipped_witness :
    ([({ path := "gone", err := true, isDir := false, content := none } : WalkEntry),
      { path := "locked.js", err := false, isDir := false, content := none },
      { path := "ok.js", err := false, isDir := false, content := some "xABC123y" }].map
        fun e => e.path).Nodup
    ∧ scanDirectory sampleCompile
        [{ path := "gone", err := true, isDir := false, content := none },
         { path := "locked.js", err := false, isDir := false, content := none },
         { path := "ok.js", err := false, isDir := false, content := some "xABC123y" }]
        { Rules := [{ ID := 1, Name := "abc", Enable := true, Regexes := ["ABC\\d+"] }] }
      = [{ FileName := "ok.js", LineNum := 1, LineContent := "xABC123y", RuleID := 1,
           RuleName := "abc", MatchText := "ABC123" }]
    ∧ (∀ r ∈ scanDirectory sampleCompile
          [{ path := "gone", err := true, isDir := false, content := none },
           { path := "locked.js", err := false, isDir := false, content := none },
           { path := "ok.js", err := false, isDir := false, content := some "xABC123y" }]
          { Rules := [{ ID := 1, Name := "abc", Enable := true, Regexes := ["ABC\\d+"] }] },
        ∀ e ∈ [({ path := "gone", err := true, isDir := false, content := none } : WalkEntry),
               { path := "locked.js", err := false, isDir := false, content := none },
               { path := "ok.js", err := false, isDir := false, content := some "xABC123y" }],
          failing e = true → e.path ≠ r.FileName) :=
  ⟨by decide, by decide,
   (C9_failing_entries_skipped sampleCompile _ _).2.2.2 (by decide)⟩

/-- C10: every record of the result carries the ID and the Name of one and the
same rule of the rule set, a rule that is enabled and has a non-empty pattern
list, and its FileName is the path of a visited entry that came without walk
error, is not a directory and has an accepted extension. -/
theorem C10_record_traceable (compile : Compiler) (tree : List WalkEntry)
    (config : Config) (r : MatchResult) (hr : r ∈ scanDirectory compile tree config) :
    (∃ rule ∈ config.Rules, rule.Enable = true ∧ rule.Regexes ≠ []
        ∧ rule.ID = r.RuleID ∧ rule.Name = r.RuleName)
    ∧ (∃ e ∈ tree, e.err = false ∧ e.isDir = false
        ∧ ToLower (Ext e.path)
            ∈ [".js", ".json", ".wxml", ".wxss", ".ts", ".jsx", ".tsx", ".html", ".css"]
        ∧ e.path = r.FileName) := by
  obtain ⟨e, he, hread, content, _, lineNum, line, _, rule, hrule, hen, p, hp, regex, _,
    whole, groups, _, rfl⟩ := (mem_scanDirectory_iff compile tree config r).1 hr
  constructor
  · exact ⟨rule, hrule, hen, List.ne_nil_of_mem hp, rfl, rfl⟩
  · unfold reachesRead at hread
    simp only [Bool.and_eq_true, Bool.not_eq_true'] at hread
    exact ⟨e, he, hread.1.1, hread.1.2,
      (allowedExt_iff _).1 hread.2, rfl⟩

/-- C10, concrete: the record of rule 2 in a rule set that also holds a
disabled rule and a rule without patterns. -/
theorem C10_record_traceable_witness :
    (∃ rule ∈ ({ Rules := [{ ID := 1, Name := "off", Enable := false,
                             Regexes := ["ABC\\d+"] },
                           { ID := 3, Name := "bare", Enable := true, Regexes := [] },
                           { ID := 2, Name := "abc", Enable := true,
                             Regexes := ["ABC\\d+"] }] } : Config).Rules,
        rule.Enable = true ∧ rule.Regexes ≠ [] ∧ rule.ID = 2 ∧ rule.Name = "abc")
    ∧ (∃ e ∈ [({ path := "src", err := false, isDir := true, content := none } : WalkEntry),
              { path := "src/A.JS", err := false, isDir := false,
                content := some "xABC123y" }],
        e.err = false ∧ e.isDir = false
        ∧ ToLower (Ext e.path)
            ∈ [".js", ".json", ".wxml", ".wxss", ".ts", ".jsx", ".tsx", ".html", ".css"]
        ∧ e.path = "src/A.JS") :=
  C10_record_traceable sampleCompile
    [{ path := "src", err := false, isDir := true, content := none },
     { path := "src/A.JS", err := false, isDir := false, content := some "xABC123y" }]
    { Rules := [{ ID := 1, Name := "off", Enable := false, Regexes := ["ABC\\d+"] },
                { ID := 3, Name := "bare", Enable := true, Regexes := [] },
                { ID := 2, Name := "abc", Enable := true, Regexes := ["ABC\\d+"] }] }
    { FileName := "src/A.JS", LineNum := 1, LineContent := "xABC123y", RuleID := 2,
      RuleName := "abc", MatchText := "ABC123" }
    (by decide)

end Infohhh
